import Mathlib

/-!
Verification of `verbos/convert_present_subjunctive.py`, a rule-based
Spanish present-subjunctive conjugation generator.  The script's pure
string functions are embedded as Lean functions over `String` (handled
through their character lists), JSON records become association lists
from string keys to string values, and the `main` conversion loop
(minus the file I/O framing) becomes the pure function `convert`.
-/

set_option maxRecDepth 4000
set_option maxHeartbeats 1000000

namespace Verbos

/-! ## String primitives

Models of the Python string operations the script uses.
`Char.isWhitespace` models the `str.strip()` whitespace set and
`Char.toLower` models `str.lower()` (the script only ever compares
against ASCII-lowercase suffixes and keys). -/

/-- Model of Python `s.strip()`: drop whitespace from both ends. -/
def pyStrip (s : String) : String :=
  ⟨((s.data.dropWhile Char.isWhitespace).reverse.dropWhile Char.isWhitespace).reverse⟩

/-- Model of Python `s.lower()`. -/
def pyLower (s : String) : String :=
  ⟨s.data.map Char.toLower⟩

/-- Model of Python `s.endswith(suffix)`. -/
def pyEndsWith (s suffix : String) : Bool :=
  decide (s.data.drop (s.data.length - suffix.data.length) = suffix.data)

/-- Model of Python `s[:n]`. -/
def pyTake (s : String) (n : Nat) : String :=
  ⟨s.data.take n⟩

/-- Model of Python `s[:-n]` for `n ≥ 1` (also `s[:len(s)-n]`). -/
def pyDropRight (s : String) (n : Nat) : String :=
  ⟨s.data.take (s.data.length - n)⟩

/-- Model of Python `s.rfind(sub)`: index of the rightmost occurrence of
`sub` in `s`, `none` when absent (Python returns `-1`). -/
def rfindSub (s sub : List Char) : Option Nat :=
  ((List.range (s.length + 1)).reverse).find? (fun i => sub.isPrefixOf (s.drop i))

/-- Model of Python `sub in s` (substring containment). -/
def pyContains (s sub : String) : Bool :=
  (rfindSub s.data sub.data).isSome

/-- Model of Python `s.rstrip()`: drop whitespace from the right end. -/
def pyRStrip (s : String) : String :=
  ⟨(s.data.reverse.dropWhile Char.isWhitespace).reverse⟩

/-! ## Records and association-list maps

A JSON record is a finite map with string keys; we embed it as an
association list with the keys in insertion order, matching Python
`dict` semantics (lookup by key, in-place update of an existing key,
new keys appended at the end). -/

/-- A JSON record: ordered key/value pairs with distinct keys. -/
abbrev Rec := List (String × String)

/-- First-match association-list lookup (Python `d.get(k)` / `d[k]`). -/
def alookup {α : Type} : List (String × α) → String → Option α
  | [], _ => none
  | (k, v) :: rest, key => if k = key then some v else alookup rest key

/-- Python `d[k] = v` on an insertion-ordered dict: update the existing
entry in place, or append a new entry at the end. -/
def setKey : Rec → String → String → Rec
  | [], k, v => [(k, v)]
  | (k0, v0) :: rest, k, v =>
      if k0 = k then (k, v) :: rest else (k0, v0) :: setKey rest k v

/-- Python `str(d.get(k) or "")`-style access: the value at `k`, or `""`
when the key is absent (`d.get(k)` followed by the script's `or ""` /
default-argument handling). -/
def getS (r : Rec) (k : String) : String :=
  (alookup r k).getD ""

/-! ## Configuration constants (lines 10-20 of the script) -/

def SOURCE_TENSE : String := "presente"
def TARGET_TENSE : String := "subjuntivo presente"

def KEY_INFINITIVE : String := "infinitivo"
def KEY_TENSE : String := "tiempo"
def KEY_SUBJECT : String := "sujeto"
def KEY_PERSONA_BASE : String := "persona_base"
def KEY_FORM : String := "forma"
def KEY_TRANSLATION : String := "traducción"

/-- The script's `TRANSLATION_PREFIX` marker string. -/
def TRANSLATION_PREF : String := "SUBJUNCTIVE CONTEXT: "

/-- Persona keys generated/looked up for the "boot" (line 23). -/
def BOOT : List String := ["yo", "tú", "él/ella/Ud.", "ellos/ellas/Uds."]

/-- `PERSONA_MAP` (lines 26-51): normalization of `persona_base` variants. -/
def PERSONA_MAP : List (String × String) :=
  [ ("yo", "yo"),
    ("tú", "tú"),
    ("tu", "tú"),
    ("nosotros", "nosotros"),
    ("vosotros", "vosotros"),
    ("él", "él/ella/Ud."),
    ("ella", "él/ella/Ud."),
    ("usted", "él/ella/Ud."),
    ("él/ella/ud.", "él/ella/Ud."),
    ("él/ella/ud", "él/ella/Ud."),
    ("él/ella/usted", "él/ella/Ud."),
    ("él/ella/Ud.", "él/ella/Ud."),
    ("él/ella/Ud", "él/ella/Ud."),
    ("ellos", "ellos/ellas/Uds."),
    ("ellas", "ellos/ellas/Uds."),
    ("ustedes", "ellos/ellas/Uds."),
    ("ellos/ellas/uds.", "ellos/ellas/Uds."),
    ("ellos/ellas/uds", "ellos/ellas/Uds."),
    ("ellos/ellas/Uds.", "ellos/ellas/Uds."),
    ("ellos/ellas/Uds", "ellos/ellas/Uds.") ]

/-- `IRREGULAR_FULL` (lines 54-61): the six fully-irregular verbs with
their complete present-subjunctive paradigms. -/
def IRREGULAR_FULL : List (String × List (String × String)) :=
  [ ("ser",
      [("yo", "sea"), ("tú", "seas"), ("él/ella/Ud.", "sea"),
       ("nosotros", "seamos"), ("vosotros", "seáis"), ("ellos/ellas/Uds.", "sean")]),
    ("ir",
      [("yo", "vaya"), ("tú", "vayas"), ("él/ella/Ud.", "vaya"),
       ("nosotros", "vayamos"), ("vosotros", "vayáis"), ("ellos/ellas/Uds.", "vayan")]),
    ("dar",
      [("yo", "dé"), ("tú", "des"), ("él/ella/Ud.", "dé"),
       ("nosotros", "demos"), ("vosotros", "deis"), ("ellos/ellas/Uds.", "den")]),
    ("estar",
      [("yo", "esté"), ("tú", "estés"), ("él/ella/Ud.", "esté"),
       ("nosotros", "estemos"), ("vosotros", "estéis"), ("ellos/ellas/Uds.", "estén")]),
    ("saber",
      [("yo", "sepa"), ("tú", "sepas"), ("él/ella/Ud.", "sepa"),
       ("nosotros", "sepamos"), ("vosotros", "sepáis"), ("ellos/ellas/Uds.", "sepan")]),
    ("haber",
      [("yo", "haya"), ("tú", "hayas"), ("él/ella/Ud.", "haya"),
       ("nosotros", "hayamos"), ("vosotros", "hayáis"), ("ellos/ellas/Uds.", "hayan")]) ]

/-- Subjunctive endings for -ar verbs (line 64). -/
def ENDINGS_AR : List (String × String) :=
  [("yo", "e"), ("tú", "es"), ("él/ella/Ud.", "e"),
   ("nosotros", "emos"), ("vosotros", "éis"), ("ellos/ellas/Uds.", "en")]

/-- Subjunctive endings for -er and -ir verbs (line 65). -/
def ENDINGS_ER_IR : List (String × String) :=
  [("yo", "a"), ("tú", "as"), ("él/ella/Ud.", "a"),
   ("nosotros", "amos"), ("vosotros", "áis"), ("ellos/ellas/Uds.", "an")]

/-- The six canonical persona tokens (the persona keys of the ending
tables, which are also the values of `PERSONA_MAP`). -/
def CANONICAL_PERSONAS : List String := ENDINGS_AR.map Prod.fst

/-! ## Helper functions (lines 69-148 of the script) -/

/-- `norm_persona` (lines 69-71).  The script's `(p or "")` on a `None`
argument is handled at call sites via `getS`. -/
def norm_persona (p : String) : String :=
  let p0 := pyStrip p
  (alookup PERSONA_MAP p0).getD p0

/-- `verb_class` (lines 73-78). -/
def verb_class (inf : String) : String :=
  let inf := pyLower (pyStrip inf)
  if pyEndsWith inf "ar" then "ar"
  else if pyEndsWith inf "er" then "er"
  else if pyEndsWith inf "ir" then "ir"
  else ""

/-- `safe_strip_suffix` (lines 80-83).  Python's `s[:-len(suffix)]`
yields `""` when `len(suffix) == 0` (the script never calls it so). -/
def safe_strip_suffix (s suffix : String) : String :=
  if pyEndsWith s suffix then
    if suffix.data.length = 0 then "" else pyDropRight s suffix.data.length
  else s

/-- Python truthiness `x or d` on optional strings: `d` when `x` is
`None` or `""`, else the string itself. -/
def orElseStr (x : Option String) (d : String) : String :=
  match x with
  | none => d
  | some s => if s = "" then d else s

/-- The first row of the group whose normalized `persona_base` is `p`:
the entry `rows_by_persona.get(p)` of the first-row-per-persona dict
built by `dict.setdefault` in `main` (lines 217-220). -/
def findRowForPersona (rows : List Rec) (p : String) : Option Rec :=
  rows.find? (fun r => norm_persona (getS r KEY_PERSONA_BASE) == p)

/-- `derive_base_stem_from_present` (lines 85-100), taking the group's
rows (the first nosotros row is the dict entry the script reads). -/
def derive_base_stem_from_present (rows : List Rec) (cls : String) : Option String :=
  match findRowForPersona rows "nosotros" with
  | none => none
  | some nos =>
    let form := pyStrip (getS nos KEY_FORM)
    if cls = "ar" then some (safe_strip_suffix form "amos")
    else if cls = "er" then some (safe_strip_suffix form "emos")
    else if cls = "ir" then some (safe_strip_suffix form "imos")
    else none

/-- `yo_stem_from_yo_form` (lines 102-108). -/
def yo_stem_from_yo_form (yo_form : String) : String :=
  let yo_form := pyStrip yo_form
  if pyEndsWith yo_form "o" && decide (1 < yo_form.length) then
    pyDropRight yo_form 1
  else yo_form

/-- `apply_car_gar_zar` (lines 110-124). -/
def apply_car_gar_zar (inf stem next_vowel : String) : String :=
  let inf := pyStrip (pyLower inf)
  if next_vowel ≠ "e" then stem
  else if pyEndsWith inf "car" && pyEndsWith stem "c" then pyDropRight stem 1 ++ "qu"
  else if pyEndsWith inf "gar" && pyEndsWith stem "g" then pyDropRight stem 1 ++ "gu"
  else if pyEndsWith inf "zar" && pyEndsWith stem "z" then pyDropRight stem 1 ++ "c"
  else stem

/-- `last_replace` (lines 126-130). -/
def last_replace (s old new : String) : String :=
  match rfindSub s.data old.data with
  | none => s
  | some i => ⟨s.data.take i ++ new.data ++ s.data.drop (i + old.data.length)⟩

/-- `detect_ir_nosvos_shift` (lines 132-148). -/
def detect_ir_nosvos_shift (base_stem yo_stem : String) : Option String :=
  if pyContains base_stem "o" && pyContains yo_stem "ue" then some "o->u"
  else if pyContains base_stem "e" && pyContains yo_stem "ie" then some "e->i"
  else if pyContains base_stem "e" && pyContains yo_stem "i" then some "e->i"
  else none

/-- `build_present_subj_form` (lines 150-181).  The script's dict
subscripts `IRREGULAR_FULL[inf_l][persona]` and `endings[persona]` are
total here via `getD ""`; `main` only calls with personas that are keys
of the ending tables, and every irregular entry covers all six. -/
def build_present_subj_form (inf cls persona yo_stem : String)
    (base_stem : Option String) : String :=
  let inf_l := pyLower inf
  match alookup IRREGULAR_FULL inf_l with
  | some tbl => (alookup tbl persona).getD ""
  | none =>
    let endings := if cls = "ar" then ENDINGS_AR else ENDINGS_ER_IR
    let ending := (alookup endings persona).getD ""
    let next_vowel := pyTake ending 1
    let stem :=
      if BOOT.contains persona then yo_stem
      else if cls = "ar" ∨ cls = "er" then orElseStr base_stem yo_stem
      else
        let base := orElseStr base_stem
          (if 2 < inf.data.length then pyDropRight inf 2 else yo_stem)
        let shift := detect_ir_nosvos_shift base yo_stem
        if shift = some "o->u" then last_replace base "o" "u"
        else if shift = some "e->i" then last_replace base "e" "i"
        else base
    let stem := apply_car_gar_zar inf stem next_vowel
    stem ++ ending

/-! ## The conversion loop (`main`, lines 196-246, minus file I/O) -/

/-- The tense filter (line 197): keep records whose tense label equals
the source tense. -/
def sourceRows (data : List Rec) : List Rec :=
  data.filter (fun r => alookup r KEY_TENSE == some SOURCE_TENSE)

/-- Append record `r` to the group keyed `inf`, or start a new group at
the end (Python `by_inf.setdefault(inf, []).append(r)`). -/
def addToGroup : List (String × List Rec) → String → Rec → List (String × List Rec)
  | [], inf, r => [(inf, [r])]
  | (k, rs) :: rest, inf, r =>
      if k = inf then (k, rs ++ [r]) :: rest
      else (k, rs) :: addToGroup rest inf r

/-- One step of the grouping loop (lines 201-205): records with a
missing or empty infinitive are dropped (`if not inf: continue`). -/
def groupStep (gs : List (String × List Rec)) (r : Rec) : List (String × List Rec) :=
  match alookup r KEY_INFINITIVE with
  | none => gs
  | some inf => if inf = "" then gs else addToGroup gs inf r

/-- Grouping by infinitive (lines 200-205): groups keep first-occurrence
order and rows keep input order. -/
def groupByInf (l : List Rec) : List (String × List Rec) :=
  l.foldl groupStep []

/-- The per-row conversion (lines 231-246): drop the row when its
normalized persona is not a key of either ending table; otherwise copy
the record, overwrite persona, tense and form, and prefix the
translation. -/
def convertRow (inf cls yo_stem : String) (base_stem : Option String)
    (r : Rec) : Option Rec :=
  let persona := norm_persona (getS r KEY_PERSONA_BASE)
  if (alookup ENDINGS_AR persona).isNone && (alookup ENDINGS_ER_IR persona).isNone then
    none
  else
    let new_r := setKey r KEY_PERSONA_BASE persona
    let new_r := setKey new_r KEY_TENSE TARGET_TENSE
    let new_r := setKey new_r KEY_FORM
      (build_present_subj_form inf cls persona yo_stem base_stem)
    let old_tr := pyStrip (getS new_r KEY_TRANSLATION)
    let new_r := setKey new_r KEY_TRANSLATION
      (if old_tr ≠ "" then TRANSLATION_PREF ++ old_tr else pyRStrip TRANSLATION_PREF)
    some new_r

/-- One verb group of the loop body (lines 210-246): classification
skip, missing-yo-row skip, stem derivation, then per-row conversion.
The `if not yo_row` truthiness test is `Option.isNone` here: every
grouped row is a non-empty dict (it has at least its tense key). -/
def processGroup (inf : String) (rows : List Rec) :
    List Rec × List (String × String) :=
  let cls := verb_class inf
  if ¬ (cls = "ar" ∨ cls = "er" ∨ cls = "ir") then
    ([], [(inf, "unknown verb class")])
  else
    let yo_row := findRowForPersona rows "yo"
    if yo_row.isNone && (alookup IRREGULAR_FULL (pyLower inf)).isNone then
      ([], [(inf, "missing yo row")])
    else
      let yo_stem :=
        match yo_row with
        | some r => yo_stem_from_yo_form (getS r KEY_FORM)
        | none => ""
      let base_stem := derive_base_stem_from_present rows cls
      (rows.filterMap (convertRow inf cls yo_stem base_stem), [])

/-- The whole conversion (lines 196-246): filter to the source tense,
group by infinitive, process each group; outputs and skip entries are
accumulated in group order exactly as the Python loop appends them. -/
def convert (data : List Rec) : List Rec × List (String × String) :=
  let groups := groupByInf (sourceRows data)
  ((groups.map (fun g => (processGroup g.1 g.2).1)).flatten,
   (groups.map (fun g => (processGroup g.1 g.2).2)).flatten)

/-! ## Concrete input data used in the concrete theorems below -/

/-- Present-indicative rows for "pedir" (1sg "pido", 1pl "pedimos",
3pl "piden"). -/
def pedirData : List Rec :=
  [ [("infinitivo", "pedir"), ("tiempo", "presente"),
     ("persona_base", "yo"), ("forma", "pido")],
    [("infinitivo", "pedir"), ("tiempo", "presente"),
     ("persona_base", "nosotros"), ("forma", "pedimos")],
    [("infinitivo", "pedir"), ("tiempo", "presente"),
     ("persona_base", "ellos"), ("forma", "piden")] ]

/-- A single present-indicative row for "hablar": persona "yo",
form "hablo". -/
def hablarData : List Rec :=
  [ [("infinitivo", "hablar"), ("tiempo", "presente"),
     ("persona_base", "yo"), ("forma", "hablo"),
     ("traducción", "to speak")] ]

/-- Two source-tense rows for "hablar": a convertible "yo" row and a row
whose persona label "zzz" has no normalization. -/
def lossData : List Rec :=
  [ [("infinitivo", "hablar"), ("tiempo", "presente"),
     ("persona_base", "yo"), ("forma", "hablo")],
    [("infinitivo", "hablar"), ("tiempo", "presente"),
     ("persona_base", "zzz"), ("forma", "xxx")] ]

/-- A row for the unclassifiable verb "qqq". -/
def mixedQqqRow : Rec :=
  [("infinitivo", "qqq"), ("tiempo", "presente"),
   ("persona_base", "yo"), ("forma", "qqqo")]

/-- A regular "hablar" row. -/
def mixedHablarRow : Rec :=
  [("infinitivo", "hablar"), ("tiempo", "presente"),
   ("persona_base", "yo"), ("forma", "hablo")]

/-- A "pedir" row with no yo row in its group. -/
def mixedPedirRow : Rec :=
  [("infinitivo", "pedir"), ("tiempo", "presente"),
   ("persona_base", "nosotros"), ("forma", "pedimos")]

/-- A mixed input: an unclassifiable verb "qqq", a regular "hablar" row,
and a "pedir" group with no yo row. -/
def mixedData : List Rec := [mixedQqqRow, mixedHablarRow, mixedPedirRow]

/-- A record carrying an extra key ("nota") the transform never touches. -/
def notaRow : Rec :=
  [("infinitivo", "hablar"), ("tiempo", "presente"), ("sujeto", "yo"),
   ("persona_base", "yo"), ("forma", "hablo"), ("traducción", "to speak"),
   ("nota", "extra")]

/-- First "yo" row for "dormir" (form "duermo"). -/
def dormirRow1 : Rec :=
  [("infinitivo", "dormir"), ("tiempo", "presente"),
   ("persona_base", "yo"), ("forma", "duermo")]

/-- A duplicate "yo" row for "dormir" carrying a different form. -/
def dormirRow2 : Rec :=
  [("infinitivo", "dormir"), ("tiempo", "presente"),
   ("persona_base", "yo"), ("forma", "miento")]

/-- The record `convertRow` produces from `notaRow`. -/
def notaOut : Rec :=
  [("infinitivo", "hablar"), ("tiempo", "subjuntivo presente"), ("sujeto", "yo"),
   ("persona_base", "yo"), ("forma", "hable"),
   ("traducción", "SUBJUNCTIVE CONTEXT: to speak"), ("nota", "extra")]

/-! ## Lemmas about records and the row conversion -/

theorem alookup_setKey (r : Rec) (k k' v : String) :
    alookup (setKey r k v) k' = if k = k' then some v else alookup r k' := by
  induction r with
  | nil => by_cases h : k = k' <;> simp [setKey, alookup, h]
  | cons hd tl ih =>
    obtain ⟨k0, v0⟩ := hd
    by_cases h0 : k0 = k
    · subst h0
      by_cases h : k0 = k' <;> simp [setKey, alookup, h]
    · by_cases h1 : k0 = k'
      · subst h1
        have hk : ¬ k = k0 := fun hkk => h0 hkk.symm
        simp [setKey, alookup, h0, hk]
      · simp [setKey, alookup, h0, h1, ih]

theorem alookup_some_mem_values {α : Type} {l : List (String × α)}
    {key : String} {v : α} (h : alookup l key = some v) :
    v ∈ l.map Prod.snd := by
  induction l with
  | nil => simp [alookup] at h
  | cons hd tl ih =>
    obtain ⟨k0, v0⟩ := hd
    by_cases h0 : k0 = key
    · simp [alookup, h0] at h
      simp [h]
    · simp only [alookup, h0, if_false] at h
      simp [ih h]

/-- What `convertRow` writes into the record it emits. -/
theorem convertRow_fields {inf cls yo_stem : String} {base_stem : Option String}
    {r out : Rec} (h : convertRow inf cls yo_stem base_stem r = some out) :
    alookup out KEY_PERSONA_BASE = some (norm_persona (getS r KEY_PERSONA_BASE))
    ∧ alookup out KEY_TENSE = some TARGET_TENSE
    ∧ alookup out KEY_FORM
        = some (build_present_subj_form inf cls
            (norm_persona (getS r KEY_PERSONA_BASE)) yo_stem base_stem)
    ∧ alookup out KEY_INFINITIVE = alookup r KEY_INFINITIVE := by
  simp only [convertRow] at h
  split at h
  · exact absurd h (by simp)
  · injection h with h
    subst h
    refine ⟨?_, ?_, ?_, ?_⟩ <;>
      simp [alookup_setKey, KEY_PERSONA_BASE, KEY_TENSE, KEY_FORM,
        KEY_TRANSLATION, KEY_INFINITIVE]

/-- `convertRow` emits a record exactly when the normalized persona is a
key of one of the two ending tables. -/
theorem convertRow_isSome (inf cls yo_stem : String) (base_stem : Option String)
    (r : Rec) :
    (convertRow inf cls yo_stem base_stem r).isSome = true ↔
      ¬((alookup ENDINGS_AR (norm_persona (getS r KEY_PERSONA_BASE))).isNone = true
        ∧ (alookup ENDINGS_ER_IR (norm_persona (getS r KEY_PERSONA_BASE))).isNone = true) := by
  simp only [convertRow]
  split <;> rename_i hcond
  · simp only [Bool.and_eq_true] at hcond
    simp [hcond]
  · simp only [Bool.and_eq_true, Option.isNone_iff_eq_none] at hcond
    simp [Option.isNone_iff_eq_none]
    tauto

/-- Suffix facts about appended strings, used for the -car spelling rule. -/
theorem pyEndsWith_append_self (s t : String) : pyEndsWith (s ++ t) t = true := by
  simp only [pyEndsWith, String.data_append, List.length_append,
    Nat.add_sub_cancel, decide_eq_true_eq]
  exact List.drop_left s.data t.data

theorem pyEndsWith_append_qu_c (s : String) :
    pyEndsWith (s ++ "qu") "c" = false := by
  simp only [pyEndsWith, String.data_append, List.length_append]
  have h2 : ("qu" : String).data.length = 2 := rfl
  have h1 : ("c" : String).data.length = 1 := rfl
  rw [h2, h1]
  have : s.data.length + 2 - 1 = s.data.length + 1 := rfl
  rw [this, List.drop_append]
  simp

/-- `apply_car_gar_zar` is the identity when no spelling rule fires. -/
theorem apply_car_gar_zar_id (inf stem nv : String)
    (h1 : ¬(pyEndsWith (pyStrip (pyLower inf)) "car" = true ∧ pyEndsWith stem "c" = true))
    (h2 : ¬(pyEndsWith (pyStrip (pyLower inf)) "gar" = true ∧ pyEndsWith stem "g" = true))
    (h3 : ¬(pyEndsWith (pyStrip (pyLower inf)) "zar" = true ∧ pyEndsWith stem "z" = true)) :
    apply_car_gar_zar inf stem nv = stem := by
  unfold apply_car_gar_zar
  by_cases he : nv ≠ "e"
  · simp [he]
  · rw [if_neg he]
    rw [if_neg (by rw [Bool.and_eq_true]; exact h1)]
    rw [if_neg (by rw [Bool.and_eq_true]; exact h2)]
    rw [if_neg (by rw [Bool.and_eq_true]; exact h3)]

/-! ## Lemmas about grouping and the conversion loop -/

theorem addToGroup_keys (gs : List (String × List Rec)) (inf : String) (r : Rec) :
    (addToGroup gs inf r).map Prod.fst
      = if inf ∈ gs.map Prod.fst then gs.map Prod.fst
        else gs.map Prod.fst ++ [inf] := by
  induction gs with
  | nil => simp [addToGroup]
  | cons g rest ih =>
    obtain ⟨k, rs⟩ := g
    by_cases h : k = inf
    · subst h
      simp [addToGroup]
    · simp only [addToGroup, if_neg h, List.map_cons]
      rw [ih]
      by_cases h2 : inf ∈ rest.map Prod.fst
      · simp [h2, Ne.symm h]
      · simp [h2, Ne.symm h]

theorem addToGroup_mem {gs : List (String × List Rec)} {inf : String} {r : Rec} :
    ∀ {p : String × List Rec}, p ∈ addToGroup gs inf r →
      p ∈ gs ∨ (p.1 = inf ∧ (p.2 = [r] ∨ ∃ rs0, (p.1, rs0) ∈ gs ∧ p.2 = rs0 ++ [r])) := by
  induction gs with
  | nil =>
    intro p hp
    simp only [addToGroup, List.mem_singleton] at hp
    subst hp
    exact Or.inr ⟨rfl, Or.inl rfl⟩
  | cons g rest ih =>
    intro p hp
    obtain ⟨k, rs⟩ := g
    by_cases h : k = inf
    · subst h
      simp only [addToGroup, eq_self_iff_true, if_true, List.mem_cons] at hp
      rcases hp with hp | hp
      · subst hp
        exact Or.inr ⟨rfl, Or.inr ⟨rs, by simp⟩⟩
      · exact Or.inl (List.mem_cons_of_mem _ hp)
    · simp only [addToGroup, if_neg h, List.mem_cons] at hp
      rcases hp with hp | hp
      · exact Or.inl (by simp [hp])
      · rcases ih hp with hin | ⟨hk, hcase⟩
        · exact Or.inl (List.mem_cons_of_mem _ hin)
        · refine Or.inr ⟨hk, ?_⟩
          rcases hcase with hc | ⟨rs0, hrs0, heq⟩
          · exact Or.inl hc
          · exact Or.inr ⟨rs0, List.mem_cons_of_mem _ hrs0, heq⟩

theorem groupStep_keys_nodup {gs : List (String × List Rec)} {r : Rec}
    (h : (gs.map Prod.fst).Nodup) : ((groupStep gs r).map Prod.fst).Nodup := by
  cases hA : alookup r KEY_INFINITIVE with
  | none => simpa [groupStep, hA] using h
  | some inf =>
    by_cases hi : inf = ""
    · simpa [groupStep, hA, hi] using h
    · simp only [groupStep, hA, if_neg hi]
      rw [addToGroup_keys]
      by_cases h2 : inf ∈ gs.map Prod.fst
      · simpa [h2] using h
      · simp [h2, List.nodup_append, h]

theorem foldl_groupStep_keys_nodup (l : List Rec) :
    ∀ gs : List (String × List Rec), (gs.map Prod.fst).Nodup →
      ((l.foldl groupStep gs).map Prod.fst).Nodup := by
  induction l with
  | nil => intro gs h; exact h
  | cons r rest ih =>
    intro gs h
    exact ih (groupStep gs r) (groupStep_keys_nodup h)

theorem groupByInf_keys_nodup (l : List Rec) :
    ((groupByInf l).map Prod.fst).Nodup :=
  foldl_groupStep_keys_nodup l [] (by simp)

theorem foldl_groupStep_wf (l : List Rec) :
    ∀ gs : List (String × List Rec),
      (∀ p ∈ gs, p.1 ≠ "" ∧ ∀ r ∈ p.2, alookup r KEY_INFINITIVE = some p.1) →
      ∀ p ∈ l.foldl groupStep gs,
        p.1 ≠ "" ∧ ∀ r ∈ p.2, alookup r KEY_INFINITIVE = some p.1 := by
  induction l with
  | nil => intro gs hwf p hp; exact hwf p hp
  | cons r rest ih =>
    intro gs hwf
    apply ih
    intro p hp
    cases hA : alookup r KEY_INFINITIVE with
    | none =>
      simp only [groupStep, hA] at hp
      exact hwf p hp
    | some i =>
      by_cases hi : i = ""
      · simp only [groupStep, hA, if_pos hi] at hp
        exact hwf p hp
      · simp only [groupStep, hA, if_neg hi] at hp
        obtain ⟨k, rs⟩ := p
        rcases addToGroup_mem hp with h | ⟨hk, hcase⟩
        · exact hwf _ h
        · simp only at hk
          subst hk
          refine ⟨hi, ?_⟩
          rcases hcase with hc | ⟨rs0, hrs0, heq⟩
          · simp only at hc
            subst hc
            intro r' hr'
            rw [List.mem_singleton] at hr'
            subst hr'
            exact hA
          · simp only at heq
            subst heq
            intro r' hr'
            rcases List.mem_append.mp hr' with h' | h'
            · exact (hwf _ hrs0).2 r' h'
            · rw [List.mem_singleton] at h'
              subst h'
              exact hA

/-- Every group of `groupByInf` has a non-empty key, and every row in
the group carries exactly that infinitive. -/
theorem groupByInf_wf {l : List Rec} {inf : String} {rows : List Rec}
    (h : (inf, rows) ∈ groupByInf l) :
    inf ≠ "" ∧ ∀ r ∈ rows, alookup r KEY_INFINITIVE = some inf :=
  foldl_groupStep_wf l [] (by simp) (inf, rows) h

theorem mem_eq_of_nodup_keys {α β : Type} {l : List (α × β)}
    (h : (l.map Prod.fst).Nodup) {k : α} {a b : β}
    (ha : (k, a) ∈ l) (hb : (k, b) ∈ l) : a = b := by
  induction l with
  | nil => cases ha
  | cons p rest ih =>
    simp only [List.map_cons, List.nodup_cons] at h
    rcases List.mem_cons.mp ha with ha' | ha'
    · rcases List.mem_cons.mp hb with hb' | hb'
      · simpa using ha'.trans hb'.symm
      · exfalso
        apply h.1
        have hk1 : p.1 = k := by rw [← ha']
        rw [hk1]
        exact List.mem_map.mpr ⟨(k, b), hb', rfl⟩
    · rcases List.mem_cons.mp hb with hb' | hb'
      · exfalso
        apply h.1
        have hk1 : p.1 = k := by rw [← hb']
        rw [hk1]
        exact List.mem_map.mpr ⟨(k, a), ha', rfl⟩
      · exact ih h.2 ha' hb'

/-- The skip entries a single group contributes, by case. -/
theorem processGroup_skips (inf : String) (rows : List Rec) :
    (processGroup inf rows).2
      = if ¬ (verb_class inf = "ar" ∨ verb_class inf = "er" ∨ verb_class inf = "ir") then
          [(inf, "unknown verb class")]
        else if (findRowForPersona rows "yo").isNone
            && (alookup IRREGULAR_FULL (pyLower inf)).isNone then
          [(inf, "missing yo row")]
        else [] := by
  by_cases hcls : ¬ (verb_class inf = "ar" ∨ verb_class inf = "er" ∨ verb_class inf = "ir")
  · simp only [processGroup, if_pos hcls]
  · by_cases hyo : ((findRowForPersona rows "yo").isNone
        && (alookup IRREGULAR_FULL (pyLower inf)).isNone) = true
    · simp only [processGroup, if_neg hcls, if_pos hyo]
    · simp only [processGroup, if_neg hcls, if_neg hyo]

theorem processGroup_skip_key {inf : String} {rows : List Rec} :
    ∀ e ∈ (processGroup inf rows).2, e.1 = inf := by
  intro e he
  rw [processGroup_skips] at he
  split at he
  · rw [List.mem_singleton] at he
    subst he
    rfl
  · split at he
    · rw [List.mem_singleton] at he
      subst he
      rfl
    · cases he

/-- The records a non-skipped group contributes. -/
theorem processGroup_outputs (inf : String) (rows : List Rec)
    (hcls : verb_class inf = "ar" ∨ verb_class inf = "er" ∨ verb_class inf = "ir")
    (hyo : ((findRowForPersona rows "yo").isNone
        && (alookup IRREGULAR_FULL (pyLower inf)).isNone) = false) :
    (processGroup inf rows).1
      = rows.filterMap (convertRow inf (verb_class inf)
          (match findRowForPersona rows "yo" with
           | some r => yo_stem_from_yo_form (getS r KEY_FORM)
           | none => "")
          (derive_base_stem_from_present rows (verb_class inf))) := by
  simp only [processGroup, if_neg (not_not_intro hcls), hyo, Bool.false_eq_true,
    if_false]

theorem mem_convert_outputs {data : List Rec} {inf : String} {rows : List Rec}
    {o : Rec} (hg : (inf, rows) ∈ groupByInf (sourceRows data))
    (ho : o ∈ (processGroup inf rows).1) : o ∈ (convert data).1 := by
  have hconv : (convert data).1
      = (List.map (fun g => (processGroup g.1 g.2).1)
          (groupByInf (sourceRows data))).flatten := rfl
  rw [hconv]
  exact List.mem_flatten.mpr ⟨(processGroup inf rows).1,
    List.mem_map.mpr ⟨(inf, rows), hg, rfl⟩, ho⟩

theorem mem_convert_skips_iff {data : List Rec} {inf : String} {rows : List Rec}
    (hg : (inf, rows) ∈ groupByInf (sourceRows data))
    (e : String × String) (hk : e.1 = inf) :
    e ∈ (convert data).2 ↔ e ∈ (processGroup inf rows).2 := by
  have hconv : (convert data).2
      = (List.map (fun g => (processGroup g.1 g.2).2)
          (groupByInf (sourceRows data))).flatten := rfl
  rw [hconv]
  constructor
  · intro h
    rw [List.mem_flatten] at h
    obtain ⟨l, hl, hel⟩ := h
    rw [List.mem_map] at hl
    obtain ⟨g, hgmem, rfl⟩ := hl
    have hkey : g.1 = inf := by
      rw [← processGroup_skip_key e hel]
      exact hk
    have hpair : (inf, g.2) ∈ groupByInf (sourceRows data) := by
      rw [← hkey]
      exact hgmem
    have hrows : g.2 = rows :=
      mem_eq_of_nodup_keys (groupByInf_keys_nodup _) hpair hg
    rw [← hkey, ← hrows]
    exact hel
  · intro h
    exact List.mem_flatten.mpr ⟨(processGroup inf rows).2,
      List.mem_map.mpr ⟨(inf, rows), hg, rfl⟩, h⟩

/-- The total count, over the run's skip report, of entries naming a
given group's infinitive equals that single group's contribution. -/
theorem convert_skips_countP {data : List Rec} {inf : String} {rows : List Rec}
    (hg : (inf, rows) ∈ groupByInf (sourceRows data)) :
    (convert data).2.countP (fun e => e.1 == inf)
      = (processGroup inf rows).2.countP (fun e => e.1 == inf) := by
  have hconv : (convert data).2
      = (List.map (fun g => (processGroup g.1 g.2).2)
          (groupByInf (sourceRows data))).flatten := rfl
  rw [hconv]
  have hnd := groupByInf_keys_nodup (sourceRows data)
  revert hnd hg
  generalize groupByInf (sourceRows data) = gs
  induction gs with
  | nil => intro hg _; cases hg
  | cons g rest ih =>
    intro hg hnd
    obtain ⟨gk, grs⟩ := g
    simp only [List.map_cons, List.flatten_cons, List.countP_append]
    simp only [List.map_cons, List.nodup_cons] at hnd
    rcases List.mem_cons.mp hg with hg' | hg'
    · obtain ⟨hk, hrs⟩ : inf = gk ∧ rows = grs := by simpa using hg'
      subst hk
      subst hrs
      have hz : (rest.map (fun g => (processGroup g.1 g.2).2)).flatten.countP
          (fun e => e.1 == inf) = 0 := by
        rw [List.countP_eq_zero]
        intro e he
        rw [List.mem_flatten] at he
        obtain ⟨l, hl, hel⟩ := he
        rw [List.mem_map] at hl
        obtain ⟨g', hmem', rfl⟩ := hl
        have hkey := processGroup_skip_key e hel
        have hgne : g'.1 ≠ inf := by
          intro hcontra
          apply hnd.1
          rw [← hcontra]
          exact List.mem_map.mpr ⟨g', hmem', rfl⟩
        simp [hkey, hgne]
      rw [hz, Nat.add_zero]
    · have hgne : gk ≠ inf := by
        intro hcontra
        apply hnd.1
        rw [hcontra]
        exact List.mem_map.mpr ⟨(inf, rows), hg', rfl⟩
      have hz : (processGroup gk grs).2.countP (fun e => e.1 == inf) = 0 := by
        rw [List.countP_eq_zero]
        intro e he
        have hkey := processGroup_skip_key e he
        simp [hkey, hgne]
      rw [hz, Nat.zero_add]
      exact ih hg' hnd.2

/-! ## Claims -/

/-- Claim C2: on an input with "pedir" rows (1sg "pido", 1pl "pedimos",
3pl "piden"), the converter emits the 1pl subjunctive "pidamos" (the
e-to-i shift applied to the base stem "ped") and the 3pl subjunctive
"pidan", with nothing skipped. -/
theorem c2_pedir_shift :
    (convert pedirData).1.map (fun r => (getS r KEY_PERSONA_BASE, getS r KEY_FORM))
      = [("yo", "pida"), ("nosotros", "pidamos"), ("ellos/ellas/Uds.", "pidan")]
    ∧ (convert pedirData).2 = [] := by decide

/-- Claim C8: on an input with a single "hablar" row (persona "yo",
present form "hablo"), the output is exactly one record whose persona is
the canonical 1sg token "yo", whose form is "hable", and whose tense is
the target tense label. -/
theorem c8_hablar_scenario :
    (convert hablarData).1.map
        (fun r => (getS r KEY_PERSONA_BASE, getS r KEY_FORM, getS r KEY_TENSE))
      = [("yo", "hable", TARGET_TENSE)]
    ∧ (convert hablarData).2 = [] := by decide

/-- Claim C3: an infinitive matching an Irregular Table key
case-insensitively makes the Form Builder return the stored
persona-specific form, ignoring class and both stems; in particular
"ser" yields "sea" at 1sg and "sean" at 3pl. -/
theorem c3_irregular_overrides :
    (∀ (inf cls persona yo_stem : String) (base_stem : Option String)
        (tbl : List (String × String)) (f : String),
        alookup IRREGULAR_FULL (pyLower inf) = some tbl →
        alookup tbl persona = some f →
        build_present_subj_form inf cls persona yo_stem base_stem = f)
    ∧ (∀ (cls yo_stem : String) (base_stem : Option String),
        build_present_subj_form "ser" cls "yo" yo_stem base_stem = "sea"
        ∧ build_present_subj_form "ser" cls "ellos/ellas/Uds." yo_stem base_stem = "sean") := by
  constructor
  · intro inf cls persona ys bs tbl f h1 h2
    simp only [build_present_subj_form, h1, h2, Option.getD_some]
  · intro cls ys bs
    exact ⟨rfl, rfl⟩

/-- Witness for C3: the override at the concrete uppercase infinitive
"SER" with junk class and stems. -/
theorem c3_irregular_overrides_witness :
    build_present_subj_form "SER" "ar" "nosotros" "teng" (some "x") = "seamos" :=
  c3_irregular_overrides.1 "SER" "ar" "nosotros" "teng" (some "x")
    [("yo", "sea"), ("tú", "seas"), ("él/ella/Ud.", "sea"),
     ("nosotros", "seamos"), ("vosotros", "seáis"), ("ellos/ellas/Uds.", "sean")]
    "seamos" rfl rfl

/-- Claim C4 counterexample: "Ud." has no entry in `PERSONA_MAP`, so the
normalizer returns it unchanged and it is not one of the six canonical
tokens; and a label that only differs by surrounding whitespace is not
returned unchanged but whitespace-stripped. -/
theorem c4_ud_counterexample :
    norm_persona "Ud." = "Ud." ∧ "Ud." ∉ CANONICAL_PERSONAS
    ∧ norm_persona " zzz " = "zzz" ∧ (" zzz " : String) ≠ "zzz" := by decide

/-- Claim C4 as amended: the normalizer always returns either one of the
six canonical persona tokens or the whitespace-stripped input; variants
"tu" and "ellos" map to canonical tokens, but "Ud." does not. -/
theorem c4_normalizer_amended :
    (∀ p : String, norm_persona p ∈ CANONICAL_PERSONAS ∨ norm_persona p = pyStrip p)
    ∧ norm_persona "tu" = "tú"
    ∧ norm_persona "ellos" = "ellos/ellas/Uds."
    ∧ norm_persona "Ud." = "Ud." := by
  refine ⟨?_, by decide, by decide, by decide⟩
  intro p
  unfold norm_persona
  cases h : alookup PERSONA_MAP (pyStrip p) with
  | none => right; simp [h]
  | some v =>
    left
    have hv : v ∈ PERSONA_MAP.map Prod.snd := alookup_some_mem_values h
    have hsub : ∀ x ∈ PERSONA_MAP.map Prod.snd, x ∈ CANONICAL_PERSONAS := by decide
    simpa [h] using hsub v hv

/-- Claim C5 counterexample: the 1sg form "o" ends in "o" but the boot
stem is returned unchanged (the code requires length > 1), not "";
and a form with surrounding whitespace is stripped first, so a form not
ending in "o" is not returned unchanged. -/
theorem c5_boot_stem_counterexample :
    yo_stem_from_yo_form "o" = "o" ∧ ("o" : String) ≠ ""
    ∧ yo_stem_from_yo_form " ax " = "ax" ∧ ("ax" : String) ≠ " ax " := by decide

/-- Claim C5 as amended: after whitespace-stripping, a 1sg form ending
in "o" of length > 1 yields the form minus its final "o", otherwise the
stripped form unchanged; and for an -ar verb outside the Irregular
Table on which no car/gar/zar spelling rule fires, every boot-person
subjunctive form is the boot stem concatenated with the -ar ending. -/
theorem c5_boot_amended :
    (∀ s : String,
        (pyEndsWith (pyStrip s) "o" = true ∧ 1 < (pyStrip s).length →
          yo_stem_from_yo_form s = pyDropRight (pyStrip s) 1)
      ∧ (¬(pyEndsWith (pyStrip s) "o" = true ∧ 1 < (pyStrip s).length) →
          yo_stem_from_yo_form s = pyStrip s))
    ∧ (∀ (inf persona yo_stem ending : String) (base_stem : Option String),
        alookup IRREGULAR_FULL (pyLower inf) = none →
        BOOT.contains persona = true →
        alookup ENDINGS_AR persona = some ending →
        ¬(pyEndsWith (pyStrip (pyLower inf)) "car" = true ∧ pyEndsWith yo_stem "c" = true) →
        ¬(pyEndsWith (pyStrip (pyLower inf)) "gar" = true ∧ pyEndsWith yo_stem "g" = true) →
        ¬(pyEndsWith (pyStrip (pyLower inf)) "zar" = true ∧ pyEndsWith yo_stem "z" = true) →
        build_present_subj_form inf "ar" persona yo_stem base_stem = yo_stem ++ ending) := by
  constructor
  · intro s
    constructor
    · rintro ⟨h1, h2⟩
      simp [yo_stem_from_yo_form, h1, h2]
    · intro h
      by_cases h1 : pyEndsWith (pyStrip s) "o" = true
      · by_cases h2 : 1 < (pyStrip s).length
        · exact absurd ⟨h1, h2⟩ h
        · simp [yo_stem_from_yo_form, h1, h2]
      · simp [yo_stem_from_yo_form, h1]
  · intro inf persona yo_stem ending base_stem hirr hboot har hc hg hz
    simp only [build_present_subj_form, hirr, hboot, har, Option.getD_some, reduceIte]
    rw [apply_car_gar_zar_id inf yo_stem _ hc hg hz]

/-- Witness for C5: the regular verb "hablar" with 1sg form "hablo". -/
theorem c5_boot_amended_witness :
    yo_stem_from_yo_form "hablo" = pyDropRight (pyStrip "hablo") 1
    ∧ yo_stem_from_yo_form "xyz" = pyStrip "xyz"
    ∧ build_present_subj_form "hablar" "ar" "yo" "habl" none = "habl" ++ "e" :=
  ⟨(c5_boot_amended.1 "hablo").1 (by decide),
   (c5_boot_amended.1 "xyz").2 (by decide),
   c5_boot_amended.2 "hablar" "yo" "habl" "e" none rfl (by decide) rfl
     (by decide) (by decide) (by decide)⟩

/-- Claim C6 counterexample: "buscar" is a -car verb outside the
Irregular Table, yet with a boot stem not ending in "c" (malformed data,
1sg form "tengo") the 1sg subjunctive form is "tenge": its stem does not
end in "qu". -/
theorem c6_car_counterexample :
    pyEndsWith (pyStrip (pyLower "buscar")) "car" = true
    ∧ alookup IRREGULAR_FULL (pyLower "buscar") = none
    ∧ yo_stem_from_yo_form "tengo" = "teng"
    ∧ build_present_subj_form "buscar" "ar" "yo" "teng" none = "teng" ++ "e"
    ∧ pyEndsWith "teng" "qu" = false := by decide

/-- Claim C6 as amended: for every -car verb outside the Irregular Table
whose boot stem ends in "c", the 1sg subjunctive form is the stem with
its final "c" replaced by "qu" plus the ending "e", and that corrected
stem ends in "qu" and not in "c". -/
theorem c6_car_spelling_amended (inf yo_stem : String) (base_stem : Option String)
    (hcar : pyEndsWith (pyStrip (pyLower inf)) "car" = true)
    (hirr : alookup IRREGULAR_FULL (pyLower inf) = none)
    (hc : pyEndsWith yo_stem "c" = true) :
    build_present_subj_form inf "ar" "yo" yo_stem base_stem
      = (pyDropRight yo_stem 1 ++ "qu") ++ "e"
    ∧ pyEndsWith (pyDropRight yo_stem 1 ++ "qu") "qu" = true
    ∧ pyEndsWith (pyDropRight yo_stem 1 ++ "qu") "c" = false := by
  refine ⟨?_, pyEndsWith_append_self _ _, pyEndsWith_append_qu_c _⟩
  have hyo : BOOT.contains "yo" = true := by decide
  have har : alookup ENDINGS_AR "yo" = some "e" := rfl
  simp only [build_present_subj_form, hirr, hyo, har, Option.getD_some, reduceIte]
  have htake : pyTake "e" 1 = "e" := rfl
  rw [htake]
  simp only [apply_car_gar_zar]
  rw [if_neg (by simp)]
  rw [if_pos (by rw [Bool.and_eq_true]; exact ⟨hcar, hc⟩)]

/-- Witness for C6: "buscar" with the well-formed 1sg stem "busc". -/
theorem c6_car_spelling_amended_witness :
    build_present_subj_form "buscar" "ar" "yo" "busc" none
      = (pyDropRight "busc" 1 ++ "qu") ++ "e" :=
  (c6_car_spelling_amended "buscar" "busc" none (by decide) rfl (by decide)).1

/-- Claim C9: every key the row conversion does not explicitly rewrite
(persona, tense, form, translation) is preserved verbatim in the output
record. -/
theorem c9_frame_preservation (inf cls yo_stem : String) (base_stem : Option String)
    (r out : Rec) (k : String)
    (hout : convertRow inf cls yo_stem base_stem r = some out)
    (h1 : k ≠ KEY_PERSONA_BASE) (h2 : k ≠ KEY_TENSE)
    (h3 : k ≠ KEY_FORM) (h4 : k ≠ KEY_TRANSLATION) :
    alookup out k = alookup r k := by
  simp only [convertRow] at hout
  split at hout
  · exact absurd hout (by simp)
  · injection hout with hout
    subst hout
    have n1 : ¬ (KEY_PERSONA_BASE = k) := fun h => h1 h.symm
    have n2 : ¬ (KEY_TENSE = k) := fun h => h2 h.symm
    have n3 : ¬ (KEY_FORM = k) := fun h => h3 h.symm
    have n4 : ¬ (KEY_TRANSLATION = k) := fun h => h4 h.symm
    simp [alookup_setKey, n1, n2, n3, n4]

/-- Witness for C9: the extra "nota" key of `notaRow` survives
conversion unchanged. -/
theorem c9_frame_preservation_witness :
    convertRow "hablar" "ar" "habl" none notaRow = some notaOut
    ∧ alookup notaOut "nota" = alookup notaRow "nota" :=
  ⟨by decide,
   c9_frame_preservation "hablar" "ar" "habl" none notaRow notaOut "nota"
     (by decide) (by decide) (by decide) (by decide) (by decide)⟩

/-- Claim C10: when two source rows share the same normalized persona
"yo", both are converted, and both output forms are built from the
first row's form (the later duplicate's own form field is ignored for
stem derivation). -/
theorem c10_first_row_stems (inf : String) (r1 r2 : Rec)
    (hcls : verb_class inf = "ar" ∨ verb_class inf = "er" ∨ verb_class inf = "ir")
    (h1 : norm_persona (getS r1 KEY_PERSONA_BASE) = "yo")
    (h2 : norm_persona (getS r2 KEY_PERSONA_BASE) = "yo") :
    (processGroup inf [r1, r2]).1.map (fun o => getS o KEY_FORM)
      = [build_present_subj_form inf (verb_class inf) "yo"
           (yo_stem_from_yo_form (getS r1 KEY_FORM)) none,
         build_present_subj_form inf (verb_class inf) "yo"
           (yo_stem_from_yo_form (getS r1 KEY_FORM)) none] := by
  have hY : findRowForPersona [r1, r2] "yo" = some r1 := by
    simp [findRowForPersona, List.find?, h1]
  have hN : findRowForPersona [r1, r2] "nosotros" = none := by
    simp [findRowForPersona, List.find?, h1, h2]
  have hB : derive_base_stem_from_present [r1, r2] (verb_class inf) = none := by
    simp [derive_base_stem_from_present, hN]
  have hs1 : (convertRow inf (verb_class inf)
      (yo_stem_from_yo_form (getS r1 KEY_FORM)) none r1).isSome = true := by
    rw [convertRow_isSome, h1]
    simp [ENDINGS_AR, alookup]
  have hs2 : (convertRow inf (verb_class inf)
      (yo_stem_from_yo_form (getS r1 KEY_FORM)) none r2).isSome = true := by
    rw [convertRow_isSome, h2]
    simp [ENDINGS_AR, alookup]
  obtain ⟨out1, hout1⟩ := Option.isSome_iff_exists.mp hs1
  obtain ⟨out2, hout2⟩ := Option.isSome_iff_exists.mp hs2
  have hf1 := (convertRow_fields hout1).2.2.1
  have hf2 := (convertRow_fields hout2).2.2.1
  rw [h1] at hf1
  rw [h2] at hf2
  simp only [processGroup]
  rw [if_neg (not_not_intro hcls)]
  simp only [hY, Option.isNone_some, Bool.false_and, Bool.false_eq_true, if_false, hB]
  simp only [List.filterMap_cons, hout1, hout2, List.filterMap_nil]
  simp [getS, hf1, hf2]

/-- Witness for C10: two "yo" rows for "dormir", the second carrying the
unrelated form "miento"; both outputs are "duerma", built from the first
row's form "duermo". -/
theorem c10_first_row_stems_witness :
    (processGroup "dormir" [dormirRow1, dormirRow2]).1.map (fun o => getS o KEY_FORM)
      = [build_present_subj_form "dormir" (verb_class "dormir") "yo"
           (yo_stem_from_yo_form (getS dormirRow1 KEY_FORM)) none,
         build_present_subj_form "dormir" (verb_class "dormir") "yo"
           (yo_stem_from_yo_form (getS dormirRow1 KEY_FORM)) none] :=
  c10_first_row_stems "dormir" dormirRow1 dormirRow2
    (by decide) (by decide) (by decide)

/-- Claim C1 counterexample: two source-tense records for "hablar", one
with the unmapped persona label "zzz"; only one record is emitted and
the skip report is empty, so one input record is lost without being
accounted for in either the output or the skip report. -/
theorem c1_silent_loss_counterexample :
    (sourceRows lossData).length = 2
    ∧ (convert lossData).1.length = 1
    ∧ (convert lossData).2 = [] := by decide

/-- Claim C1 as amended: every grouped infinitive either yields, for
each of its records whose persona normalizes to a key of the ending
tables, an output record with that infinitive and persona, or it
contributes exactly one skip entry; records whose persona does not
normalize (and records with a missing or empty infinitive) are dropped
silently, outside this accounting. -/
theorem c1_accounting_amended (data : List Rec) (inf : String) (rows : List Rec)
    (hg : (inf, rows) ∈ groupByInf (sourceRows data)) :
    (∀ r ∈ rows,
        ((alookup ENDINGS_AR (norm_persona (getS r KEY_PERSONA_BASE))).isSome = true
          ∨ (alookup ENDINGS_ER_IR (norm_persona (getS r KEY_PERSONA_BASE))).isSome = true) →
        ∃ o ∈ (convert data).1,
          alookup o KEY_INFINITIVE = some inf
          ∧ alookup o KEY_PERSONA_BASE = some (norm_persona (getS r KEY_PERSONA_BASE)))
    ∨ (convert data).2.countP (fun e => e.1 == inf) = 1 := by
  by_cases hcls : verb_class inf = "ar" ∨ verb_class inf = "er" ∨ verb_class inf = "ir"
  · by_cases hyo : ((findRowForPersona rows "yo").isNone
        && (alookup IRREGULAR_FULL (pyLower inf)).isNone) = true
    · right
      rw [convert_skips_countP hg, processGroup_skips,
        if_neg (not_not_intro hcls), if_pos hyo]
      simp
    · left
      intro r hr hvalid
      have hyo' : ((findRowForPersona rows "yo").isNone
          && (alookup IRREGULAR_FULL (pyLower inf)).isNone) = false :=
        Bool.eq_false_iff.mpr hyo
      have hsome : (convertRow inf (verb_class inf)
          (match findRowForPersona rows "yo" with
           | some r => yo_stem_from_yo_form (getS r KEY_FORM)
           | none => "")
          (derive_base_stem_from_present rows (verb_class inf)) r).isSome = true := by
        rw [convertRow_isSome]
        rintro ⟨hA, hB⟩
        rcases hvalid with hv | hv
        · rw [Option.isNone_iff_eq_none] at hA
          rw [hA] at hv
          cases hv
        · rw [Option.isNone_iff_eq_none] at hB
          rw [hB] at hv
          cases hv
      obtain ⟨out, hout⟩ := Option.isSome_iff_exists.mp hsome
      refine ⟨out, ?_, ?_, (convertRow_fields hout).1⟩
      · apply mem_convert_outputs hg
        rw [processGroup_outputs inf rows hcls hyo']
        exact List.mem_filterMap.mpr ⟨r, hr, hout⟩
      · rw [(convertRow_fields hout).2.2.2, (groupByInf_wf hg).2 r hr]
  · right
    rw [convert_skips_countP hg, processGroup_skips, if_pos hcls]
    simp

/-- Witness for C1: the "hablar" group of the mixed input takes the
first branch of the accounting disjunction. -/
theorem c1_accounting_amended_witness :
    (∀ r ∈ [mixedHablarRow],
        ((alookup ENDINGS_AR (norm_persona (getS r KEY_PERSONA_BASE))).isSome = true
          ∨ (alookup ENDINGS_ER_IR (norm_persona (getS r KEY_PERSONA_BASE))).isSome = true) →
        ∃ o ∈ (convert mixedData).1,
          alookup o KEY_INFINITIVE = some "hablar"
          ∧ alookup o KEY_PERSONA_BASE = some (norm_persona (getS r KEY_PERSONA_BASE)))
    ∨ (convert mixedData).2.countP (fun e => e.1 == "hablar") = 1 :=
  c1_accounting_amended mixedData "hablar" [mixedHablarRow] (by decide)

/-- Claim C7: a grouped verb contributes a skip entry exactly when its
infinitive is unclassifiable (reason "unknown verb class") or it has no
yo row and is not in the irregular table (reason "missing yo row"); and
every record a group converts reaches the run's output, regardless of
the other groups. -/
theorem c7_skip_iff (data : List Rec) (inf : String) (rows : List Rec)
    (hg : (inf, rows) ∈ groupByInf (sourceRows data)) :
    ((∃ reason, (inf, reason) ∈ (convert data).2) ↔
      (¬(verb_class inf = "ar" ∨ verb_class inf = "er" ∨ verb_class inf = "ir")
        ∨ (findRowForPersona rows "yo" = none
            ∧ alookup IRREGULAR_FULL (pyLower inf) = none)))
    ∧ ((inf, "unknown verb class") ∈ (convert data).2 ↔
        ¬(verb_class inf = "ar" ∨ verb_class inf = "er" ∨ verb_class inf = "ir"))
    ∧ ((inf, "missing yo row") ∈ (convert data).2 ↔
        ((verb_class inf = "ar" ∨ verb_class inf = "er" ∨ verb_class inf = "ir")
          ∧ findRowForPersona rows "yo" = none
          ∧ alookup IRREGULAR_FULL (pyLower inf) = none))
    ∧ (∀ o ∈ (processGroup inf rows).1, o ∈ (convert data).1) := by
  have hskips := processGroup_skips inf rows
  refine ⟨?_, ?_, ?_, fun o ho => mem_convert_outputs hg ho⟩
  · constructor
    · rintro ⟨reason, hmem⟩
      rw [mem_convert_skips_iff hg (inf, reason) rfl, hskips] at hmem
      split at hmem
      · rename_i hcond
        exact Or.inl hcond
      · split at hmem
        · rename_i hcond
          simp only [Bool.and_eq_true, Option.isNone_iff_eq_none] at hcond
          exact Or.inr hcond
        · cases hmem
    · intro hcond
      by_cases hcls : ¬(verb_class inf = "ar" ∨ verb_class inf = "er" ∨ verb_class inf = "ir")
      · refine ⟨"unknown verb class", ?_⟩
        rw [mem_convert_skips_iff hg (inf, "unknown verb class") rfl, hskips,
          if_pos hcls]
        exact List.mem_singleton.mpr rfl
      · rcases hcond with hcond | hmiss
        · exact absurd hcond hcls
        · refine ⟨"missing yo row", ?_⟩
          rw [mem_convert_skips_iff hg (inf, "missing yo row") rfl, hskips,
            if_neg hcls,
            if_pos (by simp [Option.isNone_iff_eq_none, hmiss.1, hmiss.2])]
          exact List.mem_singleton.mpr rfl
  · rw [mem_convert_skips_iff hg (inf, "unknown verb class") rfl, hskips]
    constructor
    · intro hmem
      split at hmem
      · rename_i hcond
        exact hcond
      · split at hmem
        · simp at hmem
        · cases hmem
    · intro hcond
      rw [if_pos hcond]
      exact List.mem_singleton.mpr rfl
  · rw [mem_convert_skips_iff hg (inf, "missing yo row") rfl, hskips]
    constructor
    · intro hmem
      split at hmem
      · simp at hmem
      · split at hmem
        · rename_i hcls hcond
          simp only [Bool.and_eq_true, Option.isNone_iff_eq_none] at hcond
          exact ⟨not_not.mp hcls, hcond.1, hcond.2⟩
        · cases hmem
    · rintro ⟨hcls, hyo, hirr⟩
      rw [if_neg (not_not_intro hcls),
        if_pos (by simp [Option.isNone_iff_eq_none, hyo, hirr])]
      exact List.mem_singleton.mpr rfl

/-- Witness for C7: the unclassifiable "qqq" group of the mixed input. -/
theorem c7_skip_iff_witness :
    (∃ reason, ("qqq", reason) ∈ (convert mixedData).2) ↔
      (¬(verb_class "qqq" = "ar" ∨ verb_class "qqq" = "er" ∨ verb_class "qqq" = "ir")
        ∨ (findRowForPersona [mixedQqqRow] "yo" = none
            ∧ alookup IRREGULAR_FULL (pyLower "qqq") = none)) :=
  (c7_skip_iff mixedData "qqq" [mixedQqqRow] (by decide)).1

end Verbos
